import Mathlib

/-!
Verification development for the reactive effect core in
`packages/qwik/src/core/use/use-watch.ts`.

The watch-descriptor data model, the runner (`runWatch`), the cleanup paths
(`cleanupWatch`, `destroyWatch`), the tracker and the lifecycle registrars
(`useWatchQrl`, `useClientEffectQrl`) are embedded shallowly.  Side effects
(invoking a cleanup callback, invoking the effect body, logging) are made
observable through an explicit event log; the cooperative promise scheduling
of the runner is embedded as a small state machine with explicit waiter and
microtask bookkeeping.
-/

/-! ### Flags (source: `WatchFlagsIsEffect` .. `WatchFlagsIsCleanup`) -/
def WatchFlagsIsEffect : Nat := 1 <<< 0

def WatchFlagsIsWatch : Nat := 1 <<< 1

def WatchFlagsIsDirty : Nat := 1 <<< 2

def WatchFlagsIsCleanup : Nat := 1 <<< 3

/-- JS bit clear `f & ~m` for non-negative 32-bit operands: `~m` coerced to
unsigned 32-bit equals `4294967295 - m` when `m < 2^32`.  All flag values in
the source stay far below `2^32`. -/
def andNot (f m : Nat) : Nat := f &&& (4294967295 - m)

/-! ### Observable events emitted by the core -/
/-- Observable side effects of the runner and cleanup paths, in program
order.  `cleanupInvoked` is a call of a stored cleanup function
(`destroy()` inside `cleanupWatch`), `errorLogged` the `logError` in its
`catch`, `subsCleared` the `subsManager.$clearSub$(watch)` executed when the
body is invoked, `bodyStart` the invocation `watchFn(track)`, `resolvedRun`
the settlement of the run's promise (`resolve(watch)`), `debugSkip` the
`logDebug` on the not-dirty fast path, and `qrlTeardownInvoked` the direct
call of the registered function on the `IS_CLEANUP` branch of
`destroyWatch`. -/
inductive Event where
  | debugSkip : Event
  | cleanupInvoked : Nat → Event
  | errorLogged : Nat → Event
  | subsCleared : Event
  | bodyStart : Nat → Event
  | resolvedRun : Nat → Event
  | qrlTeardownInvoked : Nat → Event
deriving DecidableEq, Repr

/-- A stored cleanup function: identified by `id`; `throws` says whether
invoking it raises an exception. -/
structure CleanupFn where
  id : Nat
  throws : Bool
deriving DecidableEq, Repr

/-- Modelled from the spec: the deferred re-invocable function reference
(QRL) held by a descriptor, abstracted to an identity plus, for descriptors
whose registered function is a bare teardown callback (`IS_CLEANUP`),
whether invoking that callback throws.  The qrl module/serialization
machinery is outside this core. -/
structure QRLModel where
  id : Nat
  throws : Bool
deriving DecidableEq, Repr

/-- The effect descriptor (source: `WatchDescriptor`): qrl reference, owning
element, flag bitfield `f`, call-site index `i`, session-local cleanup slot
`destroy`, session-local in-flight handle `running` (here: the id of the
run whose promise is the current handle). -/
structure WatchDescriptor where
  qrl : QRLModel
  el : Nat
  f : Nat
  i : Nat
  destroy : Option CleanupFn
  running : Option Nat
deriving DecidableEq, Repr

/-! ### cleanupWatch (source lines 580-590) -/
/-- Source `cleanupWatch`: read the `destroy` slot; if present, clear the
slot first, then invoke the function inside `try`/`catch`, logging (not
propagating) any exception.  Returns the updated descriptor together with
the events emitted. -/
def cleanupWatch (watch : WatchDescriptor) : WatchDescriptor × List Event :=
  match watch.destroy with
  | some destroy =>
      ({ watch with destroy := none },
        if destroy.throws then
          [Event.cleanupInvoked destroy.id, Event.errorLogged destroy.id]
        else
          [Event.cleanupInvoked destroy.id])
  | none => (watch, [])

/-- Result of `destroyWatch`: descriptor after the call, events emitted, and
whether an uncaught exception escapes to the caller. -/
structure DestroyResult where
  watch : WatchDescriptor
  events : List Event
  thrown : Bool
deriving DecidableEq, Repr

/-- Source `destroyWatch`: with `IS_CLEANUP` set, clear the flag and invoke
`watch.qrl.invokeFn(watch.el)` directly as a bare callback — no `try`/`catch`,
so an exception escapes; otherwise run the ordinary `cleanupWatch` path. -/
def destroyWatch (watch : WatchDescriptor) : DestroyResult :=
  if watch.f &&& WatchFlagsIsCleanup ≠ 0 then
    { watch := { watch with f := andNot watch.f WatchFlagsIsCleanup },
      events := [Event.qrlTeardownInvoked watch.qrl.id],
      thrown := watch.qrl.throws }
  else
    let cw := cleanupWatch watch
    { watch := cw.1, events := cw.2, thrown := false }

/-! ### Subscriptions -/
/-- Modelled from the spec: one dependency edge held by the external
subscription manager for this descriptor (the subscriber), recorded by
`manager.$addSub$(watch, prop)`; `prop = none` is a whole-object
subscription. -/
structure SubEntry where
  target : Nat
  prop : Option String
deriving DecidableEq, Repr

/-! ### The runner as a cooperative-scheduling machine

`runWatch` (source lines 537-578) builds a promise whose executor runs
`then(watch.running, cb)`: with no in-flight handle the continuation `cb`
(cleanup, clear subscriptions, invoke the body) runs synchronously inside
the executor; with an in-flight handle the continuation is registered on
that promise and runs only after it settles.  The promise/`then` plumbing
(`../util/promises`, not under `src/`) is modelled from the spec's
concurrency section: a single cooperative queue, suspension only at
awaiting the prior in-flight run and awaiting the body's own asynchronous
result.  The machine state makes settled promises (`resolvedRuns`),
registered continuations (`waiters`), and bodies awaiting their
asynchronous result (`pendingBodies`) explicit; continuations queued on an
already-settled promise fire in a separate microtask step. -/
/-- Behavior of one invocation of the effect body: it either returns
synchronously (possibly with a cleanup callable) or returns a pending
promise whose settlement is a later external `settle` step. -/
inductive BodyKind where
  | sync : Option CleanupFn → BodyKind
  | async : BodyKind
deriving DecidableEq, Repr

/-- State of the single-descriptor runner machine.  `watch` is the mutable
descriptor, `subs` this descriptor's entries in the subscription manager,
`resolvedRuns` the run ids whose run promise has settled, `waiters` the
continuations `(prevRun, newRun)` registered by `then(watch.running, cb)`,
`pendingBodies` the runs whose body returned a still-pending promise, and
`log` the cumulative event log. -/
structure MState where
  watch : WatchDescriptor
  subs : List SubEntry
  resolvedRuns : List Nat
  waiters : List (Nat × Nat)
  pendingBodies : List Nat
  log : List Event
deriving DecidableEq, Repr

/-- The continuation passed to `then(watch.running, ·)` in `runWatch`
(source lines 547-574): run `cleanupWatch`, clear this descriptor's
subscriptions (`$clearSub$`, invoked by `invokeFn`'s before-function when
`watchFn(track)` is called), invoke the body; a synchronous return value
that is callable becomes the new `destroy` slot and the run's promise
resolves at once, an asynchronous body leaves the run pending until its
external settlement. -/
def startBody (body : Nat → BodyKind) (runId : Nat) (st : MState) : MState :=
  let cw := cleanupWatch st.watch
  let log1 := st.log ++ cw.2 ++ [Event.subsCleared, Event.bodyStart runId]
  match body runId with
  | BodyKind.async =>
      { st with
        watch := cw.1
        subs := []
        log := log1
        pendingBodies := st.pendingBodies ++ [runId] }
  | BodyKind.sync ret =>
      let w2 := match ret with
        | some c => { cw.1 with destroy := some c }
        | none => cw.1
      { st with
        watch := w2
        subs := []
        log := log1 ++ [Event.resolvedRun runId]
        resolvedRuns := st.resolvedRuns ++ [runId] }

/-- External settlement of an asynchronous body's promise (the second
`then` in the source, lines 568-573): if the settled value is callable it
becomes the new `destroy` slot, then `resolve(watch)` settles the run's
promise. -/
def settleBody (runId : Nat) (ret : Option CleanupFn) (st : MState) : MState :=
  if runId ∈ st.pendingBodies then
    let w := match ret with
      | some c => { st.watch with destroy := some c }
      | none => st.watch
    { st with
      watch := w
      pendingBodies := st.pendingBodies.erase runId
      resolvedRuns := st.resolvedRuns ++ [runId]
      log := st.log ++ [Event.resolvedRun runId] }
  else st

/-- One microtask: fire the first registered continuation whose awaited
promise has settled (JS `promise.then` continuations run in the microtask
queue after the promise resolves). -/
def microtaskStep (body : Nat → BodyKind) (st : MState) : MState :=
  match st.waiters.find? (fun pw => pw.1 ∈ st.resolvedRuns) with
  | some pw => startBody body pw.2 { st with waiters := st.waiters.erase pw }
  | none => st

/-- An external mutation to a tracked property: the proxy layer re-sets
`IS_DIRTY` on the subscribed descriptor (spec: dirty transitions). -/
def mutateDirty (st : MState) : MState :=
  { st with watch := { st.watch with f := st.watch.f ||| WatchFlagsIsDirty } }

/-- Source `runWatch` (lines 537-578): not-dirty fast path returns the
descriptor unchanged after a debug log; otherwise `IS_DIRTY` is cleared
synchronously, the continuation is either run at once (`watch.running`
absent) or registered on the in-flight handle, and `watch.running` is set
to the new run's promise after the executor returns. -/
def runWatch (body : Nat → BodyKind) (runId : Nat) (st : MState) : MState :=
  if st.watch.f &&& WatchFlagsIsDirty = 0 then
    { st with log := st.log ++ [Event.debugSkip] }
  else
    let st1 : MState :=
      { st with watch := { st.watch with f := andNot st.watch.f WatchFlagsIsDirty } }
    let st2 :=
      match st1.watch.running with
      | none => startBody body runId st1
      | some prev => { st1 with waiters := st1.waiters ++ [(prev, runId)] }
    { st2 with watch := { st2.watch with running := some runId } }

/-- A machine step: a scheduler invocation of `runWatch`, an external
settlement of a pending body, one microtask, or an external mutation that
re-dirties the descriptor. -/
inductive Step where
  | run : Nat → Step
  | settle : Nat → Option CleanupFn → Step
  | micro : Step
  | mutate : Step
deriving DecidableEq, Repr

def stepFn (body : Nat → BodyKind) : Step → MState → MState
  | Step.run r, st => runWatch body r st
  | Step.settle r ret, st => settleBody r ret st
  | Step.micro, st => microtaskStep body st
  | Step.mutate, st => mutateDirty st

def exec (body : Nat → BodyKind) : List Step → MState → MState
  | [], st => st
  | s :: ss, st => exec body ss (stepFn body s st)

/-- Whether a step is a scheduler invocation of `runWatch`. -/
def Step.isRunStep : Step → Bool
  | Step.run _ => true
  | _ => false

/-! ### The Tracker (source lines 556-566) -/
/-- An argument handed to the tracker: `proxyTarget` is the result of
`getProxyTarget(obj)` (the unproxied target when `obj` is a trackable
proxied object, absent otherwise — accessor modelled from the spec's
trackable-object interface), `props` the object's current property
values. -/
structure TrackObj where
  proxyTarget : Option Nat
  props : List (String × Nat)
deriving DecidableEq, Repr

/-- What a tracker call returns: the object itself, or a property's current
value (absent when the object lacks the property). -/
inductive TrackValue where
  | obj : TrackObj → TrackValue
  | propVal : Option Nat → TrackValue
deriving DecidableEq, Repr

/-- Modelled from the spec: `manager.$addSub$(watch, prop)` of the external
subscription manager, safe to call repeatedly with the same subscriber
(duplicate registration is idempotent). -/
def addSub (subs : List SubEntry) (s : SubEntry) : List SubEntry :=
  if s ∈ subs then subs else subs ++ [s]

/-- Current value of a property, as JS property lookup. -/
def lookupProp (props : List (String × Nat)) (p : String) : Option Nat :=
  (props.find? (fun q => q.1 == p)).map (fun q => q.2)

/-- The `track` closure built by `runWatch` (source lines 556-566):
validate the argument via `getProxyTarget` — `assertDefined` (assert module
not under `src/`, modelled from the spec as failing fast with an
assertion-style error) — register the subscription with the manager, then
return `obj[prop]` when `prop` is truthy (JS: the empty string is falsy)
and `obj` otherwise.  The error is not caught anywhere in the runner. -/
def track (obj : TrackObj) (prop : Option String) (subs : List SubEntry) :
    Except String (TrackValue × List SubEntry) :=
  match obj.proxyTarget with
  | none => Except.error "Expected a Proxy object to track"
  | some target =>
      let subs1 := addSub subs { target := target, prop := prop }
      match prop with
      | some p =>
          if p ≠ "" then Except.ok (TrackValue.propVal (lookupProp obj.props p), subs1)
          else Except.ok (TrackValue.obj obj, subs1)
      | none => Except.ok (TrackValue.obj obj, subs1)

/-! ### The registrars (source lines 128-147 and 240-258)

`useSequentialScope`, `useWaitOn`, `useHostElement`, `getContext(el)` and
the run-trigger registrations `useResumeQrl`/`useVisibleQrl` live outside
`src/`; their contracts are modelled from the spec: the sequential scope
yields the stored slot for the current call-site index and advances the
cursor, `useWaitOn(p)` appends `p` to the promises component setup awaits,
and the trigger registrations record a deferred re-invocation. -/
inductive UseEffectRunOptions where
  | visible : UseEffectRunOptions
  | load : UseEffectRunOptions
deriving DecidableEq, Repr

/-- Modelled from the spec: one promise in the setup wait list.
`watchRun idx` is the promise `Promise.resolve().then(() => runWatch(watch,
containerState))` for the watch at index `idx` of the element's watch list:
it settles exactly when that watch's initial run (its body included)
settles. -/
inductive WaitEntry where
  | watchRun : Nat → WaitEntry
deriving DecidableEq, Repr

/-- Modelled from the spec: the per-component hook context seen by a
registrar.  `seq` are the sequential-scope slots (`true` once the call-site
has registered), `seqIndex` the cursor, `watches` the element's effect
list, `waitOn` the promises setup awaits, `deferredRuns` the initial runs
queued on the microtask queue (not yet started), `resumeHooks` and
`visibleHooks` the run-trigger registrations made through
`useResumeQrl`/`useVisibleQrl`. -/
structure HookCtx where
  seq : List Bool
  seqIndex : Nat
  watches : List WatchDescriptor
  waitOn : List WaitEntry
  deferredRuns : List Nat
  resumeHooks : List Nat
  visibleHooks : List Nat
deriving DecidableEq, Repr

/-- Store `true` in sequential-scope slot `i`, growing the list if needed. -/
def setSlot (l : List Bool) (i : Nat) : List Bool :=
  if i < l.length then l.set i true
  else l ++ List.replicate (i - l.length) false ++ [true]

/-- Source `useRunWatch` (lines 645-651): wire the descriptor's handler into
the resume-on-load or visibility mechanism according to the symbolic
trigger; no trigger means no secondary registration. -/
def useRunWatch (idx : Nat) (run' : Option UseEffectRunOptions) (ctx : HookCtx) : HookCtx :=
  match run' with
  | some UseEffectRunOptions.load => { ctx with resumeHooks := ctx.resumeHooks ++ [idx] }
  | some UseEffectRunOptions.visible => { ctx with visibleHooks := ctx.visibleHooks ++ [idx] }
  | none => ctx

/-- Source `useWatchQrl` (lines 128-147): on first evaluation of the
call-site, create the descriptor with `IS_DIRTY | IS_WATCH`, push it onto
the element's watch list, pass the deferred initial-run promise
`Promise.resolve().then(() => runWatch(watch, containerState))` to
`useWaitOn`, and on the server additionally wire the run trigger. -/
def useWatchQrl (qrl : QRLModel) (optsRun : Option UseEffectRunOptions)
    (isServer : Bool) (el : Nat) (ctx : HookCtx) : HookCtx :=
  let i := ctx.seqIndex
  let already := ctx.seq.getD i false
  let ctx1 : HookCtx := { ctx with seqIndex := i + 1 }
  if already then ctx1
  else
    let watch : WatchDescriptor :=
      { qrl := qrl
        el := el
        f := WatchFlagsIsDirty ||| WatchFlagsIsWatch
        i := i
        destroy := none
        running := none }
    let idx := ctx1.watches.length
    let ctx2 : HookCtx :=
      { ctx1 with
        seq := setSlot ctx1.seq i
        watches := ctx1.watches ++ [watch]
        waitOn := ctx1.waitOn ++ [WaitEntry.watchRun idx]
        deferredRuns := ctx1.deferredRuns ++ [idx] }
    if isServer then useRunWatch idx optsRun ctx2 else ctx2

/-- Source `useClientEffectQrl` (lines 240-258): on first evaluation of the
call-site, create the descriptor with `IS_EFFECT` (not dirty), push it onto
the element's watch list, and wire the run trigger (`opts?.run ??
'visible'`); no promise is added to the setup wait list and no initial run
is scheduled by the registrar itself.  (The `doc['qO'].observe(el)`
intersection-observer wiring is outside this core.) -/
def useClientEffectQrl (qrl : QRLModel) (optsRun : Option UseEffectRunOptions)
    (el : Nat) (ctx : HookCtx) : HookCtx :=
  let i := ctx.seqIndex
  let already := ctx.seq.getD i false
  let ctx1 : HookCtx := { ctx with seqIndex := i + 1 }
  if already then ctx1
  else
    let watch : WatchDescriptor :=
      { qrl := qrl
        el := el
        f := WatchFlagsIsEffect
        i := i
        destroy := none
        running := none }
    let idx := ctx1.watches.length
    let ctx2 : HookCtx :=
      { ctx1 with
        seq := setSlot ctx1.seq i
        watches := ctx1.watches ++ [watch] }
    useRunWatch idx (some (optsRun.getD UseEffectRunOptions.visible)) ctx2

def asyncBody : Nat → BodyKind := fun _ => BodyKind.async

def c3State : MState :=
  { watch :=
      { qrl := { id := 0, throws := false }
        el := 0
        f := WatchFlagsIsWatch
        i := 0
        destroy := some { id := 9, throws := false }
        running := some 0 }
    subs := [{ target := 1, prop := none }]
    resolvedRuns := []
    waiters := []
    pendingBodies := [0]
    log := [] }

def c8State : MState :=
  { watch :=
      { qrl := { id := 0, throws := false }
        el := 0
        f := WatchFlagsIsWatch
        i := 0
        destroy := some { id := 7, throws := true }
        running := none }
    subs := []
    resolvedRuns := []
    waiters := []
    pendingBodies := []
    log := [] }

def c9Watch : WatchDescriptor :=
  { qrl := { id := 3, throws := true }
    el := 0
    f := WatchFlagsIsCleanup
    i := 0
    destroy := none
    running := none }

def c7Obj : TrackObj := { proxyTarget := none, props := [("count", 1)] }

/-! ### C5 — tracker contract (corrected at the empty property name) -/
def c5Obj : TrackObj := { proxyTarget := some 0, props := [("", 5)] }

def c5WitnessObj : TrackObj := { proxyTarget := some 2, props := [("count", 7)] }

/-! ### C6 — registrars and component setup (corrected) -/
def emptyCtx : HookCtx :=
  { seq := []
    seqIndex := 0
    watches := []
    waitOn := []
    deferredRuns := []
    resumeHooks := []
    visibleHooks := [] }

/-! ### Positional trace invariants for the runner machine -/
/-- In `log`, every body start of run `r` is strictly preceded by the
settlement of run `prev`'s promise. -/
def PosInv (prev r : Nat) (log : List Event) : Prop :=
  ∀ i : Nat, log[i]? = some (Event.bodyStart r) →
    ∃ j : Nat, j < i ∧ log[j]? = some (Event.resolvedRun prev)

/-- The single-flight invariant for a run `r` registered to wait on run
`prev`: `r`'s body starts only after `prev`'s promise settles, `r` waits on
nothing but `prev`, and every settled run has its settlement in the log. -/
structure SFInv (prev r : Nat) (st : MState) : Prop where
  pos : PosInv prev r st.log
  uq : ∀ q : Nat, (q, r) ∈ st.waiters → q = prev
  res : ∀ q : Nat, q ∈ st.resolvedRuns → Event.resolvedRun q ∈ st.log

def c1State : MState :=
  { watch :=
      { qrl := { id := 0, throws := false }
        el := 0
        f := WatchFlagsIsDirty ||| WatchFlagsIsWatch
        i := 0
        destroy := none
        running := some 0 }
    subs := []
    resolvedRuns := []
    waiters := []
    pendingBodies := [0]
    log := [] }

/-! ### C4 — cleanup runs exactly once, strictly before the body -/
def isCleanupEvent : Event → Bool
  | Event.cleanupInvoked _ => true
  | _ => false

/-! ### Bitfield helper lemmas -/
theorem land_land_eq_zero (f a b : Nat) (h : a &&& b = 0) : f &&& a &&& b = 0 := by
  apply Nat.eq_of_testBit_eq
  intro i
  have ht : (a.testBit i && b.testBit i) = false := by
    have h2 := congrArg (fun n => n.testBit i) h
    simp only [Nat.testBit_and, Nat.zero_testBit] at h2
    exact h2
  simp only [Nat.testBit_and, Nat.zero_testBit]
  rw [Bool.and_assoc, ht, Bool.and_false]

theorem lor_four_and_four (f : Nat) : (f ||| 4) &&& 4 ≠ 0 := by
  intro h
  have h2 := congrArg (fun n => n.testBit 2) h
  simp only [Nat.testBit_and, Nat.testBit_or, Nat.zero_testBit] at h2
  have h4 : Nat.testBit 4 2 = true := by decide
  rw [h4] at h2
  simp at h2

/-! ### Auxiliary facts about the embedded operations -/
theorem andNot_dirty_and_dirty (f : Nat) :
    andNot f WatchFlagsIsDirty &&& WatchFlagsIsDirty = 0 :=
  land_land_eq_zero f _ _ (by decide)

theorem andNot_cleanup_and_cleanup (f : Nat) :
    andNot f WatchFlagsIsCleanup &&& WatchFlagsIsCleanup = 0 :=
  land_land_eq_zero f _ _ (by decide)

theorem lor_dirty_and_dirty (f : Nat) :
    (f ||| WatchFlagsIsDirty) &&& WatchFlagsIsDirty ≠ 0 := by
  have h4 : WatchFlagsIsDirty = 4 := by decide
  rw [h4]
  exact lor_four_and_four f

theorem cleanupWatch_f (w : WatchDescriptor) : (cleanupWatch w).1.f = w.f := by
  cases h : w.destroy <;> simp [cleanupWatch, h]

theorem cleanupWatch_no_bodyStart (w : WatchDescriptor) (x : Nat) :
    Event.bodyStart x ∉ (cleanupWatch w).2 := by
  cases h : w.destroy with
  | none => simp [cleanupWatch, h]
  | some c => cases hc : c.throws <;> simp [cleanupWatch, h, hc]

theorem useRunWatch_fields (idx : Nat) (run' : Option UseEffectRunOptions) (ctx : HookCtx) :
    (useRunWatch idx run' ctx).waitOn = ctx.waitOn ∧
    (useRunWatch idx run' ctx).deferredRuns = ctx.deferredRuns ∧
    (useRunWatch idx run' ctx).watches = ctx.watches := by
  cases run' with
  | none => exact ⟨rfl, rfl, rfl⟩
  | some o => cases o <;> exact ⟨rfl, rfl, rfl⟩

/-- Branch equation for `runWatch` on the not-dirty fast path. -/
theorem runWatch_skip (body : Nat → BodyKind) (st : MState) (r : Nat)
    (h : st.watch.f &&& WatchFlagsIsDirty = 0) :
    runWatch body r st = { st with log := st.log ++ [Event.debugSkip] } := by
  unfold runWatch
  rw [if_pos h]

/-! ### C3 — not-dirty fast path is a no-op -/
/-- C3: with `IS_DIRTY` unset, `runWatch` only emits the debug log and
returns the same descriptor: flags, cleanup slot, running handle and
subscriptions are all unchanged, and neither cleanup nor the body is
invoked. -/
theorem runWatch_noop_when_not_dirty (body : Nat → BodyKind) (st : MState) (r : Nat)
    (h : st.watch.f &&& WatchFlagsIsDirty = 0) :
    runWatch body r st = { st with log := st.log ++ [Event.debugSkip] } :=
  runWatch_skip body st r h

theorem runWatch_noop_when_not_dirty_witness :
    runWatch asyncBody 5 c3State = { c3State with log := c3State.log ++ [Event.debugSkip] } :=
  runWatch_noop_when_not_dirty asyncBody c3State 5 (by decide)

/-! ### C10 — cleanupWatch is at-most-once and idempotent -/
/-- C10: `cleanupWatch` empties the `destroy` slot before invoking the
stored function, so the slot is empty afterwards even when the cleanup
throws, and an immediately repeated call invokes nothing and changes
nothing. -/
theorem cleanupWatch_idempotent (w : WatchDescriptor) :
    (cleanupWatch w).1.destroy = none ∧
    cleanupWatch (cleanupWatch w).1 = ((cleanupWatch w).1, []) := by
  cases h : w.destroy <;> simp [cleanupWatch, h]

/-! ### C8 — a throwing cleanup is caught, logged and suppressed -/
/-- C8: when the stored cleanup function throws, `cleanupWatch` returns
normally with the slot cleared, having emitted the invocation and the
`logError` events — and the subsequent run still reaches its body. -/
theorem cleanup_throw_caught_logged (body : Nat → BodyKind) (st : MState) (r : Nat)
    (c : CleanupFn) (hdes : st.watch.destroy = some c) (hthrows : c.throws = true) :
    cleanupWatch st.watch =
      ({ st.watch with destroy := none },
        [Event.cleanupInvoked c.id, Event.errorLogged c.id]) ∧
    Event.bodyStart r ∈ (startBody body r st).log := by
  constructor
  · simp [cleanupWatch, hdes, hthrows]
  · cases hb : body r <;> simp [startBody, hb]

theorem cleanup_throw_caught_logged_witness :
    cleanupWatch c8State.watch =
      ({ c8State.watch with destroy := none },
        [Event.cleanupInvoked 7, Event.errorLogged 7]) ∧
    Event.bodyStart 1 ∈ (startBody asyncBody 1 c8State).log :=
  cleanup_throw_caught_logged asyncBody c8State 1 { id := 7, throws := true } rfl rfl

/-! ### C9 — destroyWatch on an IS_CLEANUP descriptor -/
/-- C9: with `IS_CLEANUP` set, `destroyWatch` clears the flag and invokes
the registered function directly as a bare teardown callback; an exception
from that callback is neither caught nor logged and escapes to the caller
(`thrown` mirrors whether the callback throws), and the ordinary cleanup
path (with its catch-and-log) is bypassed. -/
theorem destroyWatch_cleanup_branch (w : WatchDescriptor)
    (h : w.f &&& WatchFlagsIsCleanup ≠ 0) :
    (destroyWatch w).watch.f &&& WatchFlagsIsCleanup = 0 ∧
    (destroyWatch w).events = [Event.qrlTeardownInvoked w.qrl.id] ∧
    (destroyWatch w).thrown = w.qrl.throws ∧
    (∀ n, Event.errorLogged n ∉ (destroyWatch w).events) ∧
    (∀ n, Event.cleanupInvoked n ∉ (destroyWatch w).events) := by
  unfold destroyWatch
  rw [if_pos h]
  refine ⟨andNot_cleanup_and_cleanup w.f, rfl, rfl, ?_, ?_⟩ <;> intro n <;> simp

theorem destroyWatch_cleanup_branch_witness :
    (destroyWatch c9Watch).watch.f &&& WatchFlagsIsCleanup = 0 ∧
    (destroyWatch c9Watch).events = [Event.qrlTeardownInvoked 3] ∧
    (destroyWatch c9Watch).thrown = true ∧
    (∀ n, Event.errorLogged n ∉ (destroyWatch c9Watch).events) ∧
    (∀ n, Event.cleanupInvoked n ∉ (destroyWatch c9Watch).events) :=
  destroyWatch_cleanup_branch c9Watch (by decide)

/-! ### C7 — tracker fails fast on a non-trackable object -/
/-- C7: called with an object that is not a trackable proxied object
(`getProxyTarget` yields nothing), the tracker fails with the assertion
error before any subscription is registered; no handler in the runner
catches it. -/
theorem track_non_proxy_fails (obj : TrackObj) (prop : Option String)
    (subs : List SubEntry) (h : obj.proxyTarget = none) :
    track obj prop subs = Except.error "Expected a Proxy object to track" := by
  simp [track, h]

theorem track_non_proxy_fails_witness :
    track c7Obj (some "count") [] = Except.error "Expected a Proxy object to track" :=
  track_non_proxy_fails c7Obj (some "count") [] rfl

/-- C5 counterexample: the source guards the property read with JS
truthiness (`if (prop)`), so for the property name `""` the tracker returns
the object itself, not the property's current value `5`. -/
theorem track_empty_prop_counterexample :
    track c5Obj (some "") [] =
      Except.ok (TrackValue.obj c5Obj, [{ target := 0, prop := some "" }]) ∧
    TrackValue.obj c5Obj ≠ TrackValue.propVal (lookupProp c5Obj.props "") := by
  refine ⟨rfl, ?_⟩
  intro h
  exact TrackValue.noConfusion h

/-- C5 (amended): for a trackable object, the tracker with no property name
returns the object itself and registers a whole-object subscription; with a
non-empty property name it returns that property's current value and
registers a subscription scoped to that property only. -/
theorem track_contract (obj : TrackObj) (t : Nat) (subs : List SubEntry)
    (htr : obj.proxyTarget = some t) :
    track obj none subs =
      Except.ok (TrackValue.obj obj, addSub subs { target := t, prop := none }) ∧
    ∀ p : String, p ≠ "" →
      track obj (some p) subs =
        Except.ok (TrackValue.propVal (lookupProp obj.props p),
          addSub subs { target := t, prop := some p }) := by
  constructor
  · simp [track, htr]
  · intro p hp
    simp [track, htr, hp]

theorem track_contract_witness :
    track c5WitnessObj none [] =
      Except.ok (TrackValue.obj c5WitnessObj, addSub [] { target := 2, prop := none }) ∧
    track c5WitnessObj (some "count") [] =
      Except.ok (TrackValue.propVal (lookupProp c5WitnessObj.props "count"),
        addSub [] { target := 2, prop := some "count" }) := by
  have h := track_contract c5WitnessObj 2 [] rfl
  exact ⟨h.1, h.2 "count" (by decide)⟩

/-- C6 counterexample: `useWatchQrl` passes the deferred initial-run
promise to `useWaitOn`, so after a fresh registration the setup wait list
holds exactly the promise that settles when the watch's run — its body
included — settles.  Setup therefore does wait on the effect body's
completion, contradicting the claim as stated. -/
theorem useWatch_waitOn_counterexample :
    (useWatchQrl { id := 0, throws := false } none false 0 emptyCtx).waitOn =
      [WaitEntry.watchRun 0] ∧
    (useWatchQrl { id := 0, throws := false } none false 0 emptyCtx).waitOn ≠ [] := by
  refine ⟨rfl, ?_⟩
  intro h
  exact List.noConfusion h

/-- C6 (amended): neither registrar invokes the effect body during setup —
`useWatchQrl` only queues the initial run on the microtask queue (the new
descriptor is pushed still dirty, with no in-flight handle) and
`useClientEffectQrl` only wires a run trigger; `useClientEffectQrl` adds
nothing to the setup wait list, but `useWatchQrl` does add the deferred
run's completion to it, so setup awaits that watch's initial run. -/
theorem registrars_defer_initial_run (qrl : QRLModel)
    (optsRun : Option UseEffectRunOptions) (isServer : Bool) (el : Nat) (ctx : HookCtx)
    (hfresh : ctx.seq.getD ctx.seqIndex false = false) :
    (useWatchQrl qrl optsRun isServer el ctx).watches =
      ctx.watches ++
        [{ qrl := qrl, el := el, f := WatchFlagsIsDirty ||| WatchFlagsIsWatch,
           i := ctx.seqIndex, destroy := none, running := none }] ∧
    (useWatchQrl qrl optsRun isServer el ctx).deferredRuns =
      ctx.deferredRuns ++ [ctx.watches.length] ∧
    (useWatchQrl qrl optsRun isServer el ctx).waitOn =
      ctx.waitOn ++ [WaitEntry.watchRun ctx.watches.length] ∧
    (useClientEffectQrl qrl optsRun el ctx).waitOn = ctx.waitOn ∧
    (useClientEffectQrl qrl optsRun el ctx).deferredRuns = ctx.deferredRuns := by
  have hf2 : ctx.seq[ctx.seqIndex]?.getD false = false := by
    simpa [List.getD] using hfresh
  rcases optsRun with _ | (_ | _) <;> cases isServer <;>
    simp [useWatchQrl, useClientEffectQrl, useRunWatch, hf2]

theorem registrars_defer_initial_run_witness :
    (useWatchQrl { id := 1, throws := false } none true 0 emptyCtx).watches =
      emptyCtx.watches ++
        [{ qrl := { id := 1, throws := false }, el := 0,
           f := WatchFlagsIsDirty ||| WatchFlagsIsWatch,
           i := emptyCtx.seqIndex, destroy := none, running := none }] ∧
    (useWatchQrl { id := 1, throws := false } none true 0 emptyCtx).deferredRuns =
      emptyCtx.deferredRuns ++ [emptyCtx.watches.length] ∧
    (useWatchQrl { id := 1, throws := false } none true 0 emptyCtx).waitOn =
      emptyCtx.waitOn ++ [WaitEntry.watchRun emptyCtx.watches.length] ∧
    (useClientEffectQrl { id := 1, throws := false } none 0 emptyCtx).waitOn =
      emptyCtx.waitOn ∧
    (useClientEffectQrl { id := 1, throws := false } none 0 emptyCtx).deferredRuns =
      emptyCtx.deferredRuns :=
  registrars_defer_initial_run { id := 1, throws := false } none true 0 emptyCtx (by decide)

theorem posInv_append (prev r : Nat) (l1 l2 : List Event)
    (h1 : PosInv prev r l1)
    (h2 : Event.bodyStart r ∈ l2 → Event.resolvedRun prev ∈ l1) :
    PosInv prev r (l1 ++ l2) := by
  intro i hi
  by_cases hlt : i < l1.length
  · rw [List.getElem?_append_left hlt] at hi
    obtain ⟨j, hj, hjv⟩ := h1 i hi
    have hjl : j < l1.length := lt_trans hj hlt
    exact ⟨j, hj, by rw [List.getElem?_append_left hjl]; exact hjv⟩
  · push_neg at hlt
    rw [List.getElem?_append_right hlt] at hi
    have hmem : Event.bodyStart r ∈ l2 := by
      obtain ⟨hlen, hval⟩ := List.getElem?_eq_some_iff.mp hi
      exact hval ▸ List.getElem_mem hlen
    obtain ⟨j, hjv⟩ := List.getElem?_of_mem (h2 hmem)
    have hjl : j < l1.length := (List.getElem?_eq_some_iff.mp hjv).1
    exact ⟨j, lt_of_lt_of_le hjl hlt,
      by rw [List.getElem?_append_left hjl]; exact hjv⟩

theorem startBody_spec (body : Nat → BodyKind) (rId : Nat) (st : MState) :
    ∃ delta : List Event,
      (startBody body rId st).log = st.log ++ delta ∧
      (∀ x : Nat, Event.bodyStart x ∈ delta → x = rId) ∧
      (startBody body rId st).waiters = st.waiters ∧
      (∀ q : Nat, q ∈ (startBody body rId st).resolvedRuns →
        q ∈ st.resolvedRuns ∨ Event.resolvedRun q ∈ delta) ∧
      (startBody body rId st).watch.f = st.watch.f := by
  cases hb : body rId with
  | async =>
      refine ⟨(cleanupWatch st.watch).2 ++ [Event.subsCleared, Event.bodyStart rId],
        ?_, ?_, ?_, ?_, ?_⟩
      · simp [startBody, hb, List.append_assoc]
      · intro x hx
        rcases List.mem_append.mp hx with hx1 | hx2
        · exact absurd hx1 (cleanupWatch_no_bodyStart st.watch x)
        · simpa using hx2
      · simp [startBody, hb]
      · intro q hq
        left
        simpa [startBody, hb] using hq
      · simp [startBody, hb, cleanupWatch_f]
  | sync ret =>
      refine ⟨(cleanupWatch st.watch).2 ++
          [Event.subsCleared, Event.bodyStart rId, Event.resolvedRun rId],
        ?_, ?_, ?_, ?_, ?_⟩
      · simp [startBody, hb, List.append_assoc]
      · intro x hx
        rcases List.mem_append.mp hx with hx1 | hx2
        · exact absurd hx1 (cleanupWatch_no_bodyStart st.watch x)
        · simpa using hx2
      · simp [startBody, hb]
      · intro q hq
        have hq2 : q ∈ st.resolvedRuns ++ [rId] := by
          simpa [startBody, hb] using hq
        rcases List.mem_append.mp hq2 with hq3 | hq4
        · exact Or.inl hq3
        · have hq5 : q = rId := by simpa using hq4
          exact Or.inr (by simp [hq5])
      · cases ret <;> simp [startBody, hb, cleanupWatch_f]

theorem sfinv_startBody (body : Nat → BodyKind) (prev r rId : Nat) (st : MState)
    (h : SFInv prev r st)
    (hcond : rId = r → Event.resolvedRun prev ∈ st.log) :
    SFInv prev r (startBody body rId st) := by
  obtain ⟨delta, hlog, hbody, hwait, hresolve, _⟩ := startBody_spec body rId st
  refine ⟨?_, ?_, ?_⟩
  · rw [hlog]
    refine posInv_append prev r _ _ h.pos ?_
    intro hm
    exact hcond (hbody r hm).symm
  · intro q hq
    rw [hwait] at hq
    exact h.uq q hq
  · intro q hq
    rw [hlog]
    rcases hresolve q hq with hq1 | hq2
    · exact List.mem_append_left _ (h.res q hq1)
    · exact List.mem_append_right _ hq2

/-! ### Branch equations for runWatch on a dirty descriptor -/
theorem runWatch_dirty_none (body : Nat → BodyKind) (r : Nat) (st : MState)
    (hd : ¬ st.watch.f &&& WatchFlagsIsDirty = 0) (hr : st.watch.running = none) :
    runWatch body r st =
      { startBody body r
          { st with watch := { st.watch with f := andNot st.watch.f WatchFlagsIsDirty } } with
        watch :=
          { (startBody body r
              { st with
                watch := { st.watch with f := andNot st.watch.f WatchFlagsIsDirty } }).watch with
            running := some r } } := by
  unfold runWatch
  rw [if_neg hd]
  simp only [hr]

theorem runWatch_dirty_some (body : Nat → BodyKind) (r p : Nat) (st : MState)
    (hd : ¬ st.watch.f &&& WatchFlagsIsDirty = 0) (hr : st.watch.running = some p) :
    runWatch body r st =
      { st with
        watch := { st.watch with f := andNot st.watch.f WatchFlagsIsDirty, running := some r }
        waiters := st.waiters ++ [(p, r)] } := by
  unfold runWatch
  rw [if_neg hd]
  simp only [hr]

theorem sfinv_step (body : Nat → BodyKind) (prev r : Nat) (s : Step) (st : MState)
    (h : SFInv prev r st) (hs : s ≠ Step.run r) : SFInv prev r (stepFn body s st) := by
  cases s with
  | run r2 =>
      have hne : r2 ≠ r := fun he => hs (by rw [he])
      show SFInv prev r (runWatch body r2 st)
      by_cases hd : st.watch.f &&& WatchFlagsIsDirty = 0
      · rw [runWatch_skip body st r2 hd]
        exact ⟨posInv_append prev r _ _ h.pos (fun hm => absurd hm (by simp)),
          h.uq, fun q hq => List.mem_append_left _ (h.res q hq)⟩
      · cases hr : st.watch.running with
        | none =>
            rw [runWatch_dirty_none body r2 st hd hr]
            have h1 : SFInv prev r
                { st with watch := { st.watch with f := andNot st.watch.f WatchFlagsIsDirty } } :=
              ⟨h.pos, h.uq, h.res⟩
            have h2 := sfinv_startBody body prev r r2 _ h1 (fun he => absurd he hne)
            exact ⟨h2.pos, h2.uq, h2.res⟩
        | some p =>
            rw [runWatch_dirty_some body r2 p st hd hr]
            refine ⟨h.pos, ?_, h.res⟩
            intro q hq
            have hq2 : (q, r) ∈ st.waiters ++ [(p, r2)] := hq
            rcases List.mem_append.mp hq2 with hq3 | hq4
            · exact h.uq q hq3
            · have hq5 : q = p ∧ r = r2 := by simpa using hq4
              exact absurd hq5.2.symm hne
  | settle q2 ret =>
      show SFInv prev r (settleBody q2 ret st)
      unfold settleBody
      by_cases hm : q2 ∈ st.pendingBodies
      · rw [if_pos hm]
        refine ⟨?_, ?_, ?_⟩
        · exact posInv_append prev r st.log [Event.resolvedRun q2] h.pos
            (fun hm2 => absurd hm2 (by simp))
        · intro q hq
          exact h.uq q hq
        · intro q hq
          have hq2 : q ∈ st.resolvedRuns ++ [q2] := hq
          show Event.resolvedRun q ∈ st.log ++ [Event.resolvedRun q2]
          rcases List.mem_append.mp hq2 with hq3 | hq4
          · exact List.mem_append_left _ (h.res q hq3)
          · have hq5 : q = q2 := by simpa using hq4
            exact List.mem_append_right _ (by simp [hq5])
      · rw [if_neg hm]
        exact h
  | micro =>
      show SFInv prev r (microtaskStep body st)
      unfold microtaskStep
      cases hf : st.waiters.find? (fun pw => pw.1 ∈ st.resolvedRuns) with
      | none => exact h
      | some pw =>
          have hmem : pw ∈ st.waiters := List.mem_of_find?_eq_some hf
          have hp : pw.1 ∈ st.resolvedRuns := by
            have h2 := List.find?_some hf
            simpa using h2
          have h1 : SFInv prev r { st with waiters := st.waiters.erase pw } :=
            ⟨h.pos, fun q hq => h.uq q (List.mem_of_mem_erase hq), h.res⟩
          have hcond : pw.2 = r →
              Event.resolvedRun prev ∈
                ({ st with waiters := st.waiters.erase pw } : MState).log := by
            intro hr2
            have hpw : (pw.1, r) ∈ st.waiters := by
              rw [← hr2]
              simpa using hmem
            have hq : pw.1 = prev := h.uq pw.1 hpw
            exact h.res prev (hq ▸ hp)
          exact sfinv_startBody body prev r pw.2 _ h1 hcond
  | mutate =>
      exact ⟨h.pos, h.uq, h.res⟩

theorem sfinv_exec (body : Nat → BodyKind) (prev r : Nat) (ss : List Step) (st : MState)
    (h : SFInv prev r st) (hss : Step.run r ∉ ss) : SFInv prev r (exec body ss st) := by
  induction ss generalizing st with
  | nil => exact h
  | cons s tail ih =>
      have hs : s ≠ Step.run r := fun he => hss (by rw [he]; exact List.mem_cons_self _ _)
      have htail : Step.run r ∉ tail := fun hm => hss (List.mem_cons_of_mem _ hm)
      exact ih (stepFn body s st) (sfinv_step body prev r s st h hs) htail

/-! ### C1 — runs of the same descriptor are single-flight -/
/-- C1: invoking `runWatch` for a dirty descriptor while a previous run is
still in flight (its `running` handle unsettled) performs no cleanup and no
body invocation synchronously — the log is untouched and the continuation
is merely registered on the previous run's promise — and in every
continuation of the execution that does not re-invoke this run, the new
run's body start is strictly preceded in the log by the settlement of the
previous run's handle, so at most one body execution per descriptor
overlaps at any time. -/
theorem runWatch_single_flight (body : Nat → BodyKind) (st : MState) (r prev : Nat)
    (hrun : st.watch.running = some prev)
    (_hpend : prev ∉ st.resolvedRuns)
    (hdirty : st.watch.f &&& WatchFlagsIsDirty ≠ 0)
    (hstart : Event.bodyStart r ∉ st.log)
    (hw : ∀ q : Nat, (q, r) ∉ st.waiters)
    (hres : ∀ q : Nat, q ∈ st.resolvedRuns → Event.resolvedRun q ∈ st.log) :
    (runWatch body r st).log = st.log ∧
    (prev, r) ∈ (runWatch body r st).waiters ∧
    ∀ ss : List Step, Step.run r ∉ ss →
      PosInv prev r (exec body ss (runWatch body r st)).log := by
  have he := runWatch_dirty_some body r prev st hdirty hrun
  have hsf : SFInv prev r (runWatch body r st) := by
    rw [he]
    refine ⟨?_, ?_, ?_⟩
    · intro i hi
      exact absurd (List.mem_iff_getElem?.mpr ⟨i, hi⟩) hstart
    · intro q hq
      have hq2 : (q, r) ∈ st.waiters ++ [(prev, r)] := hq
      rcases List.mem_append.mp hq2 with hq3 | hq4
      · exact absurd hq3 (hw q)
      · have hq5 : q = prev ∧ r = r := by simpa using hq4
        exact hq5.1
    · intro q hq
      exact hres q hq
  refine ⟨?_, ?_, ?_⟩
  · rw [he]
  · rw [he]
    exact List.mem_append_right _ (by simp)
  · intro ss hss
    exact (sfinv_exec body prev r ss _ hsf hss).pos

theorem runWatch_single_flight_witness :
    (runWatch asyncBody 1 c1State).log = c1State.log ∧
    (0, 1) ∈ (runWatch asyncBody 1 c1State).waiters ∧
    PosInv 0 1
      (exec asyncBody [Step.settle 0 none, Step.micro] (runWatch asyncBody 1 c1State)).log := by
  have h := runWatch_single_flight asyncBody c1State 1 0 rfl (by decide) (by decide)
    (by decide) (fun q => by simp [c1State]) (fun q hq => absurd hq (by simp [c1State]))
  exact ⟨h.1, h.2.1, h.2.2 [Step.settle 0 none, Step.micro] (by decide)⟩

/-! ### C2 — IS_DIRTY is cleared before any asynchronous suspension -/
theorem stepFn_preserves_dirty (body : Nat → BodyKind) (s : Step) (st : MState)
    (hs : s.isRunStep = false)
    (h : st.watch.f &&& WatchFlagsIsDirty ≠ 0) :
    (stepFn body s st).watch.f &&& WatchFlagsIsDirty ≠ 0 := by
  cases s with
  | run r => simp [Step.isRunStep] at hs
  | settle q ret =>
      show (settleBody q ret st).watch.f &&& WatchFlagsIsDirty ≠ 0
      unfold settleBody
      by_cases hm : q ∈ st.pendingBodies
      · rw [if_pos hm]
        cases ret <;> exact h
      · rw [if_neg hm]
        exact h
  | micro =>
      show (microtaskStep body st).watch.f &&& WatchFlagsIsDirty ≠ 0
      unfold microtaskStep
      cases hf : st.waiters.find? (fun pw => pw.1 ∈ st.resolvedRuns) with
      | none => exact h
      | some pw =>
          obtain ⟨delta, _, _, _, _, hfeq⟩ :=
            startBody_spec body pw.2 { st with waiters := st.waiters.erase pw }
          rw [hfeq]
          exact h
  | mutate =>
      show (mutateDirty st).watch.f &&& WatchFlagsIsDirty ≠ 0
      exact lor_dirty_and_dirty st.watch.f

theorem exec_preserves_dirty (body : Nat → BodyKind) (ss : List Step) (st : MState)
    (hss : ∀ s ∈ ss, s.isRunStep = false)
    (h : st.watch.f &&& WatchFlagsIsDirty ≠ 0) :
    (exec body ss st).watch.f &&& WatchFlagsIsDirty ≠ 0 := by
  induction ss generalizing st with
  | nil => exact h
  | cons s tail ih =>
      exact ih (stepFn body s st)
        (fun s2 hs2 => hss s2 (List.mem_cons_of_mem _ hs2))
        (stepFn_preserves_dirty body s st (hss s (List.mem_cons_self _ _)) h)

/-- C2: for a dirty descriptor, `runWatch` clears `IS_DIRTY` within its
synchronous prefix — before awaiting a prior in-flight run (with an
in-flight handle present nothing is logged, hence no cleanup or body runs
before the suspension) and before the body is invoked — so a mutation
re-setting `IS_DIRTY` after `runWatch` returns stays set through any
sequence of settlements, microtasks and further mutations (the in-flight
run completing among them): it is recorded for a future run, never absorbed
into the run in progress. -/
theorem runWatch_clears_dirty_before_suspension (body : Nat → BodyKind) (st : MState) (r : Nat)
    (hdirty : st.watch.f &&& WatchFlagsIsDirty ≠ 0) :
    (runWatch body r st).watch.f &&& WatchFlagsIsDirty = 0 ∧
    (∀ prev : Nat, st.watch.running = some prev → (runWatch body r st).log = st.log) ∧
    ∀ ss : List Step, (∀ s ∈ ss, s.isRunStep = false) →
      (exec body ss (mutateDirty (runWatch body r st))).watch.f &&& WatchFlagsIsDirty ≠ 0 := by
  refine ⟨?_, ?_, ?_⟩
  · cases hr : st.watch.running with
    | none =>
        rw [runWatch_dirty_none body r st hdirty hr]
        obtain ⟨delta, _, _, _, _, hfeq⟩ := startBody_spec body r
          { st with watch := { st.watch with f := andNot st.watch.f WatchFlagsIsDirty } }
        have h3 : (startBody body r
            { st with
              watch := { st.watch with f := andNot st.watch.f WatchFlagsIsDirty } }).watch.f &&&
            WatchFlagsIsDirty = 0 := by
          rw [hfeq]
          exact andNot_dirty_and_dirty st.watch.f
        exact h3
    | some p =>
        rw [runWatch_dirty_some body r p st hdirty hr]
        exact andNot_dirty_and_dirty st.watch.f
  · intro prev hr
    rw [runWatch_dirty_some body r prev st hdirty hr]
  · intro ss hss
    refine exec_preserves_dirty body ss _ hss ?_
    exact lor_dirty_and_dirty (runWatch body r st).watch.f

theorem runWatch_clears_dirty_witness :
    (runWatch asyncBody 1 c1State).watch.f &&& WatchFlagsIsDirty = 0 ∧
    (runWatch asyncBody 1 c1State).log = c1State.log ∧
    (exec asyncBody [Step.settle 0 none, Step.micro]
      (mutateDirty (runWatch asyncBody 1 c1State))).watch.f &&& WatchFlagsIsDirty ≠ 0 := by
  have h := runWatch_clears_dirty_before_suspension asyncBody c1State 1 (by decide)
  exact ⟨h.1, h.2.1 0 rfl, h.2.2 [Step.settle 0 none, Step.micro] (by decide)⟩

/-- C4: on the body-execution path of a run (`startBody`, the continuation
every run of `runWatch` executes, whether fired synchronously or from the
microtask queue), a stored cleanup from the previous run is invoked exactly
once and strictly before the body is invoked; it is detached from the
descriptor, so while an asynchronous body is in flight the `destroy` slot
is empty (the cleanup can never run twice). -/
theorem run_cleanup_before_body (body : Nat → BodyKind) (st : MState) (r : Nat)
    (c : CleanupFn) (hdes : st.watch.destroy = some c) :
    ((startBody body r st).log.drop st.log.length).filter isCleanupEvent =
      [Event.cleanupInvoked c.id] ∧
    (∃ i j : Nat, i < j ∧
      ((startBody body r st).log.drop st.log.length)[i]? =
        some (Event.cleanupInvoked c.id) ∧
      ((startBody body r st).log.drop st.log.length)[j]? = some (Event.bodyStart r)) ∧
    (body r = BodyKind.async → (startBody body r st).watch.destroy = none) := by
  cases hb : body r with
  | async =>
      cases hthrows : c.throws with
      | false =>
          have hdrop : (startBody body r st).log.drop st.log.length =
              [Event.cleanupInvoked c.id, Event.subsCleared, Event.bodyStart r] := by
            have hlog : (startBody body r st).log = st.log ++
                [Event.cleanupInvoked c.id, Event.subsCleared, Event.bodyStart r] := by
              simp [startBody, cleanupWatch, hb, hdes, hthrows, List.append_assoc]
            rw [hlog]
            exact List.drop_left _ _
          refine ⟨?_, ⟨0, 2, by omega, ?_, ?_⟩, ?_⟩
          · rw [hdrop]; simp [isCleanupEvent]
          · rw [hdrop]; rfl
          · rw [hdrop]; rfl
          · intro _
            simp [startBody, cleanupWatch, hb, hdes]
      | true =>
          have hdrop : (startBody body r st).log.drop st.log.length =
              [Event.cleanupInvoked c.id, Event.errorLogged c.id,
                Event.subsCleared, Event.bodyStart r] := by
            have hlog : (startBody body r st).log = st.log ++
                [Event.cleanupInvoked c.id, Event.errorLogged c.id,
                  Event.subsCleared, Event.bodyStart r] := by
              simp [startBody, cleanupWatch, hb, hdes, hthrows, List.append_assoc]
            rw [hlog]
            exact List.drop_left _ _
          refine ⟨?_, ⟨0, 3, by omega, ?_, ?_⟩, ?_⟩
          · rw [hdrop]; simp [isCleanupEvent]
          · rw [hdrop]; rfl
          · rw [hdrop]; rfl
          · intro _
            simp [startBody, cleanupWatch, hb, hdes]
  | sync ret =>
      cases hthrows : c.throws with
      | false =>
          have hdrop : (startBody body r st).log.drop st.log.length =
              [Event.cleanupInvoked c.id, Event.subsCleared, Event.bodyStart r,
                Event.resolvedRun r] := by
            have hlog : (startBody body r st).log = st.log ++
                [Event.cleanupInvoked c.id, Event.subsCleared, Event.bodyStart r,
                  Event.resolvedRun r] := by
              simp [startBody, cleanupWatch, hb, hdes, hthrows, List.append_assoc]
            rw [hlog]
            exact List.drop_left _ _
          refine ⟨?_, ⟨0, 2, by omega, ?_, ?_⟩, ?_⟩
          · rw [hdrop]; simp [isCleanupEvent]
          · rw [hdrop]; rfl
          · rw [hdrop]; rfl
          · intro habs
            simp at habs
      | true =>
          have hdrop : (startBody body r st).log.drop st.log.length =
              [Event.cleanupInvoked c.id, Event.errorLogged c.id, Event.subsCleared,
                Event.bodyStart r, Event.resolvedRun r] := by
            have hlog : (startBody body r st).log = st.log ++
                [Event.cleanupInvoked c.id, Event.errorLogged c.id, Event.subsCleared,
                  Event.bodyStart r, Event.resolvedRun r] := by
              simp [startBody, cleanupWatch, hb, hdes, hthrows, List.append_assoc]
            rw [hlog]
            exact List.drop_left _ _
          refine ⟨?_, ⟨0, 3, by omega, ?_, ?_⟩, ?_⟩
          · rw [hdrop]; simp [isCleanupEvent]
          · rw [hdrop]; rfl
          · rw [hdrop]; rfl
          · intro habs
            simp at habs

theorem run_cleanup_before_body_witness :
    ((startBody asyncBody 2 c8State).log.drop c8State.log.length).filter isCleanupEvent =
      [Event.cleanupInvoked 7] ∧
    (∃ i j : Nat, i < j ∧
      ((startBody asyncBody 2 c8State).log.drop c8State.log.length)[i]? =
        some (Event.cleanupInvoked 7) ∧
      ((startBody asyncBody 2 c8State).log.drop c8State.log.length)[j]? =
        some (Event.bodyStart 2)) ∧
    (asyncBody 2 = BodyKind.async → (startBody asyncBody 2 c8State).watch.destroy = none) :=
  run_cleanup_before_body asyncBody c8State 2 { id := 7, throws := true } rfl
